import Mathlib

/-!
Verification of the core logic of the Elyx member-journey visualization
(`src/elyx_visualization/app.py`): the metrics aggregation over the
conversation log, the event ordering for the timeline, and the
event-to-conversation correlation resolver.

The embedding models the Python code directly:
* `strptime_date` models `datetime.strptime(s, "%Y-%m-%d")` (app.py line 106):
  exactly three dash-separated decimal components forming a valid calendar
  date, otherwise a `ValueError` (here: `none`).
* `to_datetime` models `pandas.to_datetime` on the ISO-8601 timestamp strings
  of the dataset (`YYYY-MM-DD`, optionally followed by ` HH:MM[:SS]` or
  `THH:MM[:SS]`); anything else fails to parse (here: `none`).
* Python's `sorted`/`list.sort` with a key function is a stable sort by key;
  it is embedded as the stable insertion sort `sortLe`.
-/

namespace Elyx

/-- Splits a list of characters on a separator character; mirrors
`String.splitOn` for a one-character separator. -/
def splitCL (sep : Char) : List Char → List (List Char)
  | [] => [[]]
  | c :: cs =>
    match splitCL sep cs with
    | [] => if c == sep then [[], []] else [[c]]
    | r :: rs => if c == sep then [] :: r :: rs else (c :: r) :: rs

/-- Value of a decimal digit character, `none` for non-digits. -/
def digitVal (c : Char) : Option Nat :=
  if c.isDigit then some (c.toNat - 48) else none

/-- Accumulates decimal digits into a number, failing on any non-digit. -/
def digitsToNat : Nat → List Char → Option Nat
  | acc, [] => some acc
  | acc, c :: cs =>
    match digitVal c with
    | some d => digitsToNat (acc * 10 + d) cs
    | none => none

/-- Parses a non-empty all-digit character list as a decimal number;
mirrors `String.toNat?` / Python `int` conversion inside `strptime`. -/
def toNatCL (l : List Char) : Option Nat :=
  match l with
  | [] => none
  | _ => digitsToNat 0 l

/-- Gregorian leap-year rule, as used by `datetime` and `pandas`. -/
def isLeapYear (y : Nat) : Bool :=
  y % 4 == 0 && (y % 100 != 0 || y % 400 == 0)

/-- Number of days of month `m` of year `y`. -/
def daysInMonth (y m : Nat) : Nat :=
  if m == 2 then (if isLeapYear y then 29 else 28)
  else if m == 4 || m == 6 || m == 9 || m == 11 then 30
  else 31

/-- A parsed calendar date. -/
structure Date where
  year : Nat
  month : Nat
  day : Nat
deriving DecidableEq

/-- A parsed timestamp (second granularity suffices for the dataset). -/
structure DateTime where
  date : Date
  hour : Nat
  minute : Nat
  second : Nat
deriving DecidableEq

/-- Order-preserving encoding of a date as a number (the bases strictly
bound the field ranges, so the encoding is monotone in (y, m, d)). -/
def Date.key (d : Date) : Nat :=
  (d.year * 13 + d.month) * 32 + d.day

/-- Order-preserving encoding of a timestamp as a number. -/
def DateTime.key (t : DateTime) : Nat :=
  ((t.date.key * 24 + t.hour) * 60 + t.minute) * 60 + t.second

/-- Models `datetime.strptime(s, "%Y-%m-%d")` on a character list: three
dash-separated decimal components that form a valid calendar date. -/
def strptimeCL (l : List Char) : Option Date :=
  match splitCL '-' l with
  | [ys, ms, ds] =>
    match toNatCL ys, toNatCL ms, toNatCL ds with
    | some y, some m, some d =>
      if 1 ≤ m ∧ m ≤ 12 ∧ 1 ≤ d ∧ d ≤ daysInMonth y m then some ⟨y, m, d⟩
      else none
    | _, _, _ => none
  | _ => none

/-- Models `datetime.strptime(s, "%Y-%m-%d")` (app.py line 106): returns the
parsed date, or `none` where Python raises `ValueError`. -/
def strptime_date (s : String) : Option Date :=
  strptimeCL s.data

/-- Parses `HH:MM` or `HH:MM:SS` with valid field ranges. -/
def parseTimeCL (l : List Char) : Option (Nat × Nat × Nat) :=
  match splitCL ':' l with
  | [hs, ms] =>
    match toNatCL hs, toNatCL ms with
    | some h, some mi => if h ≤ 23 ∧ mi ≤ 59 then some (h, mi, 0) else none
    | _, _ => none
  | [hs, ms, ss] =>
    match toNatCL hs, toNatCL ms, toNatCL ss with
    | some h, some mi, some se =>
      if h ≤ 23 ∧ mi ≤ 59 ∧ se ≤ 59 then some (h, mi, se) else none
    | _, _, _ => none
  | _ => none

/-- Models `pandas.to_datetime` on the ISO-8601 timestamp strings of the
dataset: a date, optionally followed by a time separated by a space or `T`;
returns `none` where pandas raises a parse error. -/
def to_datetime (s : String) : Option DateTime :=
  let cs := s.data
  let parts := if cs.contains 'T' then splitCL 'T' cs else splitCL ' ' cs
  match parts with
  | [ds] => (strptimeCL ds).map (fun d => ⟨d, 0, 0, 0⟩)
  | [ds, ts] =>
    match strptimeCL ds, parseTimeCL ts with
    | some d, some (h, mi, se) => some ⟨d, h, mi, se⟩
    | _, _ => none
  | _ => none

/-- A record of `data/conversations.json` (spec section 3). -/
structure Message where
  message_id : String
  timestamp : String
  sender_role : String
  sender_name : String
  message_text : String
deriving DecidableEq

/-- A record of `data/events.json` (spec section 3). -/
structure Event where
  event_id : String
  date : String
  title : String
  summary : String
  rationale : String
  type : String
  source_message_ids : List String
deriving DecidableEq

/-- Stable insertion of `x` into `l` under the boolean comparison `le`:
`x` is placed before the first element `y` with `le x y`, so it never moves
past an element whose key compares equal. -/
def insertLe (le : α → α → Bool) (x : α) : List α → List α
  | [] => [x]
  | y :: ys => if le x y then x :: y :: ys else y :: insertLe le x ys

/-- Stable sort under the boolean comparison `le`; embeds Python's stable
`sorted`/`list.sort` with a key function. -/
def sortLe (le : α → α → Bool) : List α → List α
  | [] => []
  | x :: xs => insertLe le x (sortLe le xs)

theorem mem_insertLe (le : α → α → Bool) (x : α) (l : List α) (a : α) :
    a ∈ insertLe le x l ↔ a = x ∨ a ∈ l := by
  induction l with
  | nil => simp [insertLe]
  | cons y ys ih =>
    by_cases h : le x y
    · simp [insertLe, h]
    · simp only [insertLe, h, Bool.false_eq_true, if_false, List.mem_cons, ih]
      tauto

theorem insertLe_perm (le : α → α → Bool) (x : α) (l : List α) :
    (insertLe le x l).Perm (x :: l) := by
  induction l with
  | nil => exact List.Perm.refl _
  | cons y ys ih =>
    by_cases h : le x y
    · simp [insertLe, h]
    · simp only [insertLe, h, Bool.false_eq_true, if_false]
      exact (ih.cons y).trans (List.Perm.swap x y ys)

theorem sortLe_perm (le : α → α → Bool) (l : List α) :
    (sortLe le l).Perm l := by
  induction l with
  | nil => exact List.Perm.refl _
  | cons x xs ih =>
    exact (insertLe_perm le x (sortLe le xs)).trans (ih.cons x)

theorem insertLe_pairwise (le : α → α → Bool)
    (htot : ∀ a b, le a b = true ∨ le b a = true)
    (htrans : ∀ a b c, le a b = true → le b c = true → le a c = true)
    (x : α) (l : List α) (hl : l.Pairwise (fun a b => le a b = true)) :
    (insertLe le x l).Pairwise (fun a b => le a b = true) := by
  induction l with
  | nil => simp [insertLe]
  | cons y ys ih =>
    rcases List.pairwise_cons.mp hl with ⟨hy, hys⟩
    by_cases h : le x y
    · simp only [insertLe, h, if_true]
      refine List.pairwise_cons.mpr ⟨?_, hl⟩
      intro a ha
      rcases List.mem_cons.mp ha with rfl | ha
      · exact h
      · exact htrans x y a h (hy a ha)
    · simp only [insertLe, h, Bool.false_eq_true, if_false]
      refine List.pairwise_cons.mpr ⟨?_, ih hys⟩
      intro a ha
      rcases (mem_insertLe le x ys a).mp ha with rfl | ha
      · rcases htot a y with hh | hh
        · exact absurd hh h
        · exact hh
      · exact hy a ha

theorem sortLe_pairwise (le : α → α → Bool)
    (htot : ∀ a b, le a b = true ∨ le b a = true)
    (htrans : ∀ a b c, le a b = true → le b c = true → le a c = true)
    (l : List α) :
    (sortLe le l).Pairwise (fun a b => le a b = true) := by
  induction l with
  | nil => simp [sortLe]
  | cons x xs ih => exact insertLe_pairwise le htot htrans x _ ih

theorem insertLe_filter (le : α → α → Bool) (p : α → Bool)
    (hp : ∀ a b, p a = true → p b = true → le a b = true)
    (x : α) (l : List α) :
    (insertLe le x l).filter p = (x :: l).filter p := by
  induction l with
  | nil => rfl
  | cons y ys ih =>
    by_cases h : le x y
    · simp [insertLe, h]
    · simp only [insertLe, h, Bool.false_eq_true, if_false]
      cases hx : p x with
      | true =>
        cases hy : p y with
        | true => exact absurd (hp x y hx hy) h
        | false =>
          simp only [List.filter_cons, hx, hy, if_true, if_false, ih,
            Bool.false_eq_true]
      | false =>
        cases hy : p y with
        | true =>
          simp only [List.filter_cons, hx, hy, if_true, if_false, ih,
            Bool.false_eq_true]
        | false =>
          simp only [List.filter_cons, hx, hy, if_false, ih,
            Bool.false_eq_true]

theorem sortLe_filter (le : α → α → Bool) (p : α → Bool)
    (hp : ∀ a b, p a = true → p b = true → le a b = true)
    (l : List α) :
    (sortLe le l).filter p = l.filter p := by
  induction l with
  | nil => rfl
  | cons x xs ih =>
    calc (insertLe le x (sortLe le xs)).filter p
        = (x :: sortLe le xs).filter p := insertLe_filter le p hp x _
      _ = (x :: xs).filter p := by
          cases hx : p x with
          | true => simp only [List.filter_cons, hx, if_true, ih]
          | false => simp only [List.filter_cons, hx, Bool.false_eq_true,
              if_false, ih]

theorem sortLe_mem (le : α → α → Bool) (l : List α) (a : α) :
    a ∈ sortLe le l ↔ a ∈ l :=
  (sortLe_perm le l).mem_iff

theorem sortLe_nil_iff (le : α → α → Bool) (l : List α) :
    sortLe le l = [] ↔ l = [] := by
  constructor
  · intro h
    have := (sortLe_perm le l).symm
    rw [h] at this
    exact this.eq_nil
  · intro h
    rw [h]
    rfl

/-- First-seen enumeration of the distinct elements of the second list that
are not in `seen`; mirrors the hash-based distinct-key enumeration of
`pandas.value_counts` / `groupby`. -/
def distinctAux [BEq α] : List α → List α → List α
  | _, [] => []
  | seen, x :: xs =>
    if seen.contains x then distinctAux seen xs
    else x :: distinctAux (x :: seen) xs

/-- Distinct elements of a list in order of first appearance. -/
def distinctFirst [BEq α] (l : List α) : List α :=
  distinctAux [] l

theorem mem_distinctAux [BEq α] [LawfulBEq α] (seen l : List α) (a : α) :
    a ∈ distinctAux seen l ↔ a ∈ l ∧ ¬ a ∈ seen := by
  induction l generalizing seen with
  | nil => simp [distinctAux]
  | cons x xs ih =>
    by_cases h : seen.contains x
    · simp only [distinctAux, h, if_true, ih, List.mem_cons]
      constructor
      · tauto
      · rintro ⟨rfl | hx, hs⟩
        · exact absurd (List.mem_of_elem_eq_true h) hs
        · exact ⟨hx, hs⟩
    · simp only [distinctAux, h, Bool.false_eq_true, if_false, List.mem_cons, ih]
      constructor
      · rintro (rfl | ⟨hx, hs⟩)
        · refine ⟨Or.inl rfl, ?_⟩
          intro hc
          exact h (List.elem_eq_true_of_mem hc)
        · exact ⟨Or.inr hx, fun hc => hs (Or.inr hc)⟩
      · rintro ⟨rfl | hx, hs⟩
        · exact Or.inl rfl
        · by_cases hax : a = x
          · exact Or.inl hax
          · exact Or.inr ⟨hx, fun hc => hc.elim hax hs⟩

theorem mem_distinctFirst [BEq α] [LawfulBEq α] (l : List α) (a : α) :
    a ∈ distinctFirst l ↔ a ∈ l := by
  rw [distinctFirst, mem_distinctAux]
  simp

theorem nodup_distinctAux [BEq α] [LawfulBEq α] (seen l : List α) :
    (distinctAux seen l).Nodup := by
  induction l generalizing seen with
  | nil => exact List.nodup_nil
  | cons x xs ih =>
    by_cases h : seen.contains x
    · simpa only [distinctAux, h, if_true] using ih seen
    · simp only [distinctAux, h, Bool.false_eq_true, if_false]
      refine List.nodup_cons.mpr ⟨?_, ih (x :: seen)⟩
      intro hx
      exact ((mem_distinctAux (x :: seen) xs x).mp hx).2
        (List.mem_cons_self _ _)

theorem nodup_distinctFirst [BEq α] [LawfulBEq α] (l : List α) :
    (distinctFirst l).Nodup :=
  nodup_distinctAux [] l

/-- The Python exceptions relevant to the core (spec section 7 maps
`ValueError` from `datetime.strptime` to `MalformedInputError`;
`ParserError`/`KeyError` are the pandas exceptions raised by
`calculate_metrics`). -/
inductive AppError where
  | MalformedInputError (msg : String)
  | ParserError (msg : String)
  | KeyError (key : String)
deriving DecidableEq

/-- Sort key of a message: its parsed timestamp (the `getD` default is never
used on the success paths, where every timestamp parses). -/
def tsKeyD (m : Message) : Nat :=
  ((to_datetime m.timestamp).map DateTime.key).getD 0

/-- Sort key of an event: its parsed date. -/
def dateKeyD (e : Event) : Nat :=
  ((strptime_date e.date).map Date.key).getD 0

/-- Models the Correlation Resolver (app.py lines 158-167): filter the
conversations to those whose `message_id` is in the selected event's
`source_message_ids`, then stable-sort them by `pd.to_datetime` of the
timestamp. `list.sort` computes all keys first, so an unparseable timestamp
among the selected messages raises (here: `ParserError`) before any
reordering. -/
def resolve (event : Event) (messages : List Message) : Except AppError (List Message) :=
  let source_messages :=
    messages.filter (fun m => event.source_message_ids.contains m.message_id)
  if source_messages.all (fun m => (to_datetime m.timestamp).isSome) then
    Except.ok (sortLe (fun a b => decide (tsKeyD a ≤ tsKeyD b)) source_messages)
  else
    Except.error (AppError.ParserError "could not parse timestamp")

/-- Models the event ordering (app.py line 106):
`sorted(events_data, key=lambda x: datetime.strptime(x["date"], "%Y-%m-%d"))`.
`sorted` computes every key first, so one unparseable date raises
`ValueError` (spec: `MalformedInputError`) and no ordering is produced;
otherwise the events are stable-sorted by parsed date. -/
def order_events (events : List Event) : Except AppError (List Event) :=
  if events.all (fun e => (strptime_date e.date).isSome) then
    Except.ok (sortLe (fun a b => decide (dateKeyD a ≤ dateKeyD b)) events)
  else
    Except.error (AppError.MalformedInputError "time data does not match format %Y-%m-%d")

/-- Models app.py line 61: `df[df["sender_role"] == "member"].shape[0]`. -/
def count_member_initiations (messages : List Message) : Nat :=
  (messages.filter (fun m => m.sender_role == "member")).length

/-- Models app.py line 62: `df[df["sender_role"] != "member"].shape[0]`. -/
def count_team_responses (messages : List Message) : Nat :=
  (messages.filter (fun m => m.sender_role != "member")).length

/-- Models app.py lines 64-67: `team_messages["sender_name"].value_counts()`,
i.e. one `(Expert, Message Count)` row per distinct non-member sender name,
stable-sorted descending by count (distinct names enumerated in first-seen
order). -/
def messages_per_expert (messages : List Message) : List (String × Nat) :=
  let team_messages := messages.filter (fun m => m.sender_role != "member")
  let names := distinctFirst (team_messages.map (fun m => m.sender_name))
  let counts := names.map
    (fun n => (n, (team_messages.filter (fun m => m.sender_name == n)).length))
  sortLe (fun a b => decide (b.2 ≤ a.2)) counts

/-- Models app.py line 57: `timestamp.dt.to_period("M").astype(str)`, the
`YYYY-MM` month key of a parsed timestamp (month zero-padded to two digits). -/
def month_str (t : DateTime) : String :=
  toString t.date.year ++ "-" ++
    (if t.date.month < 10 then "0" else "") ++ toString t.date.month

/-- Models app.py lines 70-75: restrict to member messages, group by the
`month` column and count per group (`groupby` enumerates the group keys;
its ascending key sort is by the `YYYY-MM` string). When this runs inside
`calculate_metrics`, every timestamp has already parsed (line 53), so the
`filterMap` drops nothing. An empty member set yields the empty mapping. -/
def initiations_per_month (messages : List Message) : List (String × Nat) :=
  let member_df := messages.filter (fun m => m.sender_role == "member")
  let months := member_df.filterMap (fun m => (to_datetime m.timestamp).map month_str)
  let keys := sortLe (fun a b : String => compare a b != Ordering.gt)
    (distinctFirst months)
  keys.map (fun k => (k, (months.filter (fun s => s == k)).length))

/-- The aggregate record returned by `calculate_metrics` (app.py 77-82). -/
structure Metrics where
  member_initiations : Nat
  team_responses : Nat
  messages_per_expert : List (String × Nat)
  initiations_per_month : List (String × Nat)
deriving DecidableEq

/-- Models `calculate_metrics` (app.py lines 50-82). `pd.DataFrame([])` has
no columns, so `df["timestamp"]` on line 53 raises `KeyError`; on a nonempty
collection `pd.to_datetime(df["timestamp"])` raises a parse error unless
every timestamp parses; otherwise the four aggregates are computed. -/
def calculate_metrics (conv_data : List Message) : Except AppError Metrics :=
  if conv_data.isEmpty then
    Except.error (AppError.KeyError "timestamp")
  else if conv_data.all (fun m => (to_datetime m.timestamp).isSome) then
    Except.ok
      { member_initiations := count_member_initiations conv_data
        team_responses := count_team_responses conv_data
        messages_per_expert := messages_per_expert conv_data
        initiations_per_month := initiations_per_month conv_data }
  else
    Except.error (AppError.ParserError "could not parse timestamp")

/-- Models app.py lines 218-219:
`member_initiations / total_messages if total_messages > 0 else 0`. -/
def engagement_ratio (member_count total_count : Nat) : ℚ :=
  if total_count > 0 then (member_count : ℚ) / (total_count : ℚ) else 0

/-- Python truthiness of an optional list: `None` and `[]` are falsy. -/
def truthy (l : Option (List α)) : Bool :=
  match l with
  | none => false
  | some xs => !xs.isEmpty

/-- Models the guard on app.py lines 35-39: the script proceeds past
`st.stop()` only when both loaded collections are truthy (neither `None`
nor empty). -/
def app_proceeds (conversations_data : Option (List Message))
    (events_data : Option (List Event)) : Bool :=
  truthy conversations_data && truthy events_data

/-- Models the main script flow (app.py lines 35-106): `load_data` yields
the two optional collections; unless both are truthy the script stops and
no core operation runs; otherwise `calculate_metrics` (line 84) and the
event ordering (line 106) are invoked (and `resolve` later, inside the same
guarded region). -/
def app_core_run (conversations_data : Option (List Message))
    (events_data : Option (List Event)) :
    Option (Except AppError Metrics × Except AppError (List Event)) :=
  if app_proceeds conversations_data events_data then
    some (calculate_metrics (conversations_data.getD []),
      order_events (events_data.getD []))
  else
    none

/-! Concrete sample records used to instantiate the theorems. -/

/-- A member message with a parseable timestamp. -/
def morningMsg : Message :=
  ⟨"m1", "2024-01-05 09:00", "member", "Rohan", "hi"⟩

/-- A member message in a different month. -/
def febMsg : Message :=
  ⟨"m2", "2024-02-01 10:00", "member", "Rohan", "question"⟩

/-- A message whose timestamp does not parse. -/
def notADateMsg : Message :=
  ⟨"m3", "not-a-date", "member", "Rohan", "hello"⟩

/-- A coach message. -/
def coachMsg1 : Message :=
  ⟨"m10", "2024-01-06 08:00", "coach", "Carla", "a"⟩

/-- A second coach message by the same expert. -/
def coachMsg2 : Message :=
  ⟨"m11", "2024-01-07 08:00", "coach", "Carla", "b"⟩

/-- A message by a different expert. -/
def nutMsg : Message :=
  ⟨"m12", "2024-01-08 08:00", "nutritionist", "Nadia", "c"⟩

/-- An event with an invalid calendar date. -/
def badDateEvent : Event :=
  ⟨"e9", "2024-13-40", "t", "s", "r", "Friction", []⟩

/-- An event linking an existing and a dangling message id. -/
def linkEvent : Event :=
  ⟨"e1", "2024-02-02", "t", "s", "r", "Insight", ["m1", "m404"]⟩

/-- C2: for every message collection, the count of messages with
`sender_role == "member"` plus the count of messages with
`sender_role != "member"` equals the total number of messages. -/
theorem count_partition (messages : List Message) :
    count_member_initiations messages + count_team_responses messages
      = messages.length := by
  induction messages with
  | nil => rfl
  | cons m ms ih =>
    simp only [count_member_initiations, count_team_responses,
      List.filter_cons, bne, List.length_cons] at ih ⊢
    cases h : (m.sender_role == "member") with
    | true =>
      simp only [h, if_true, Bool.not_true, Bool.false_eq_true, if_false,
        List.length_cons]
      omega
    | false =>
      simp only [h, Bool.false_eq_true, if_false, Bool.not_false, if_true,
        List.length_cons]
      omega

/-- C5: for `member_count ≤ total_count`, `engagement_ratio` is 0 when
`total_count = 0` (no division by zero), equals `member_count / total_count`
when `total_count > 0`, and always lies in `[0, 1]`. -/
theorem engagement_ratio_spec (member_count total_count : Nat)
    (h : member_count ≤ total_count) :
    (total_count = 0 → engagement_ratio member_count total_count = 0)
    ∧ (0 < total_count →
        engagement_ratio member_count total_count
          = (member_count : ℚ) / (total_count : ℚ))
    ∧ 0 ≤ engagement_ratio member_count total_count
    ∧ engagement_ratio member_count total_count ≤ 1 := by
  refine ⟨?_, ?_, ?_, ?_⟩
  · intro h0
    simp [engagement_ratio, h0]
  · intro h0
    simp [engagement_ratio, h0]
  · unfold engagement_ratio
    split
    · exact div_nonneg (Nat.cast_nonneg _) (Nat.cast_nonneg _)
    · exact le_refl 0
  · unfold engagement_ratio
    split
    · rename_i hpos
      have ht : (0 : ℚ) < (total_count : ℚ) := by exact_mod_cast hpos
      rw [div_le_one ht]
      exact_mod_cast h
    · exact zero_le_one

/-- Witness for C5 at `member_count = 1`, `total_count = 2`. -/
theorem engagement_ratio_spec_witness :
    (1 : Nat) ≤ 2
    ∧ 0 ≤ engagement_ratio 1 2 ∧ engagement_ratio 1 2 ≤ 1 :=
  ⟨by norm_num, (engagement_ratio_spec 1 2 (by norm_num)).2.2⟩

/-- C4: if any event's date fails to parse as a valid calendar date,
`order_events` fails with `MalformedInputError` (Python: `ValueError` from
`datetime.strptime`) instead of producing an ordering. -/
theorem order_events_malformed (events : List Event) (e : Event)
    (he : e ∈ events) (hbad : strptime_date e.date = none) :
    order_events events
      = Except.error (AppError.MalformedInputError
          "time data does not match format %Y-%m-%d") := by
  have hall : ¬ (events.all (fun ev => (strptime_date ev.date).isSome) = true) := by
    intro hall
    have hsome := List.all_eq_true.mp hall e he
    rw [hbad] at hsome
    exact Bool.false_ne_true hsome
  unfold order_events
  rw [if_neg hall]

/-- Witness for C4 at the invalid date `"2024-13-40"`. -/
theorem order_events_malformed_witness :
    order_events [badDateEvent]
      = Except.error (AppError.MalformedInputError
          "time data does not match format %Y-%m-%d") :=
  order_events_malformed [badDateEvent] badDateEvent (by decide) (by rfl)

/-- C3 counterexample: on a collection containing the timestamp
`"not-a-date"`, `calculate_metrics` fails (pandas `to_datetime` raises)
instead of excluding the record from the month grouping while counting it. -/
theorem calculate_metrics_not_a_date_fails :
    calculate_metrics [notADateMsg]
      = Except.error (AppError.ParserError "could not parse timestamp") := by
  rfl

/-- C3 (amended): if any record's timestamp is unparseable, metrics
aggregation fails with a parse error; no aggregate (neither the role counts
nor the month grouping) is produced. -/
theorem calculate_metrics_bad_timestamp (conv_data : List Message)
    (m : Message) (hm : m ∈ conv_data)
    (hbad : to_datetime m.timestamp = none) :
    calculate_metrics conv_data
      = Except.error (AppError.ParserError "could not parse timestamp") := by
  have hne : ¬ (conv_data.isEmpty = true) := by
    cases conv_data with
    | nil => cases hm
    | cons a as => exact fun hc => Bool.false_ne_true hc
  have hall : ¬ (conv_data.all (fun x => (to_datetime x.timestamp).isSome) = true) := by
    intro hall
    have hsome := List.all_eq_true.mp hall m hm
    rw [hbad] at hsome
    exact Bool.false_ne_true hsome
  unfold calculate_metrics
  rw [if_neg hne, if_neg hall]

/-- Witness for the amended C3: a valid record does not save the
aggregation when another record's timestamp is unparseable. -/
theorem calculate_metrics_bad_timestamp_witness :
    calculate_metrics [morningMsg, notADateMsg]
      = Except.error (AppError.ParserError "could not parse timestamp") :=
  calculate_metrics_bad_timestamp [morningMsg, notADateMsg] notADateMsg
    (by decide) (by rfl)

/-- C10: when the loader yields `None` or an empty collection for either
input, the script stops before any core operation: no metrics, ordering or
resolution is computed, and an empty-but-valid collection behaves exactly
like a failed load (`None`). -/
theorem app_halts_on_empty (conv : Option (List Message))
    (evts : Option (List Event))
    (h : conv = none ∨ conv = some [] ∨ evts = none ∨ evts = some []) :
    app_core_run conv evts = none
    ∧ app_core_run (some ([] : List Message)) evts = app_core_run none evts
    ∧ app_core_run conv (some ([] : List Event)) = app_core_run conv none := by
  refine ⟨?_, ?_, ?_⟩
  · rcases h with rfl | rfl | rfl | rfl <;>
      simp [app_core_run, app_proceeds, truthy]
  · simp [app_core_run, app_proceeds, truthy]
  · simp [app_core_run, app_proceeds, truthy]

/-- Witness for C10: empty conversations with a nonempty event list. -/
theorem app_halts_on_empty_witness :
    app_core_run (some ([] : List Message)) (some [linkEvent]) = none
    ∧ app_core_run (some ([] : List Message)) (some [linkEvent])
        = app_core_run none (some [linkEvent])
    ∧ app_core_run (some ([] : List Message)) (some ([] : List Event))
        = app_core_run (some ([] : List Message)) none :=
  app_halts_on_empty (some []) (some [linkEvent]) (Or.inr (Or.inl rfl))

/-- The timestamp-key comparison used by `resolve` is total. -/
theorem tsLe_total (a b : Message) :
    decide (tsKeyD a ≤ tsKeyD b) = true ∨ decide (tsKeyD b ≤ tsKeyD a) = true := by
  rcases Nat.le_total (tsKeyD a) (tsKeyD b) with hh | hh
  · exact Or.inl (decide_eq_true hh)
  · exact Or.inr (decide_eq_true hh)

/-- The timestamp-key comparison used by `resolve` is transitive. -/
theorem tsLe_trans (a b c : Message)
    (hab : decide (tsKeyD a ≤ tsKeyD b) = true)
    (hbc : decide (tsKeyD b ≤ tsKeyD c) = true) :
    decide (tsKeyD a ≤ tsKeyD c) = true :=
  decide_eq_true (Nat.le_trans (of_decide_eq_true hab) (of_decide_eq_true hbc))

/-- C1: when every timestamp parses, `resolve` succeeds and returns exactly
the messages whose id appears in the event's `source_message_ids`, sorted
ascending by timestamp; dangling ids are ignored and an empty or unmatched
id list gives the empty result. -/
theorem resolve_spec (event : Event) (messages : List Message)
    (h : ∀ m ∈ messages, (to_datetime m.timestamp).isSome = true) :
    ∃ l, resolve event messages = Except.ok l
      ∧ l.Perm (messages.filter
          (fun m => event.source_message_ids.contains m.message_id))
      ∧ l.Pairwise (fun a b => tsKeyD a ≤ tsKeyD b)
      ∧ (∀ m, m ∈ l ↔ m ∈ messages
          ∧ event.source_message_ids.contains m.message_id = true)
      ∧ (event.source_message_ids = [] → l = []) := by
  have hres : resolve event messages
      = (if (messages.filter
              (fun m => event.source_message_ids.contains m.message_id)).all
              (fun m => (to_datetime m.timestamp).isSome) then
          Except.ok (sortLe (fun a b => decide (tsKeyD a ≤ tsKeyD b))
            (messages.filter
              (fun m => event.source_message_ids.contains m.message_id)))
        else Except.error (AppError.ParserError "could not parse timestamp")) := rfl
  have hall : (messages.filter
      (fun m => event.source_message_ids.contains m.message_id)).all
      (fun m => (to_datetime m.timestamp).isSome) = true :=
    List.all_eq_true.mpr (fun m hm => h m (List.mem_of_mem_filter hm))
  refine ⟨sortLe (fun a b => decide (tsKeyD a ≤ tsKeyD b))
    (messages.filter (fun m => event.source_message_ids.contains m.message_id)),
    ?_, ?_, ?_, ?_, ?_⟩
  · rw [hres, if_pos hall]
  · exact sortLe_perm _ _
  · exact (sortLe_pairwise _ tsLe_total tsLe_trans _).imp
      (fun hab => of_decide_eq_true hab)
  · intro m
    rw [sortLe_mem, List.mem_filter]
  · intro hids
    have hfil : messages.filter
        (fun m => event.source_message_ids.contains m.message_id) = [] := by
      rw [hids]
      exact List.filter_eq_nil_iff.mpr (fun m _ => by simp)
    rw [hfil]
    rfl

/-- Witness for C1: event ids `["m1", "m404"]` against the collection
`[m1]`; the dangling id `m404` is ignored. -/
theorem resolve_spec_witness :
    ∃ l, resolve linkEvent [morningMsg] = Except.ok l
      ∧ l.Perm ([morningMsg].filter
          (fun m => linkEvent.source_message_ids.contains m.message_id))
      ∧ l.Pairwise (fun a b => tsKeyD a ≤ tsKeyD b)
      ∧ (∀ m, m ∈ l ↔ m ∈ [morningMsg]
          ∧ linkEvent.source_message_ids.contains m.message_id = true)
      ∧ (linkEvent.source_message_ids = [] → l = []) :=
  resolve_spec linkEvent [morningMsg] (by decide)

/-- The date-key comparison used by `order_events` is total. -/
theorem dateLe_total (a b : Event) :
    decide (dateKeyD a ≤ dateKeyD b) = true
      ∨ decide (dateKeyD b ≤ dateKeyD a) = true := by
  rcases Nat.le_total (dateKeyD a) (dateKeyD b) with hh | hh
  · exact Or.inl (decide_eq_true hh)
  · exact Or.inr (decide_eq_true hh)

/-- The date-key comparison used by `order_events` is transitive. -/
theorem dateLe_trans (a b c : Event)
    (hab : decide (dateKeyD a ≤ dateKeyD b) = true)
    (hbc : decide (dateKeyD b ≤ dateKeyD c) = true) :
    decide (dateKeyD a ≤ dateKeyD c) = true :=
  decide_eq_true (Nat.le_trans (of_decide_eq_true hab) (of_decide_eq_true hbc))

/-- C6: when every event date parses, `order_events` returns a permutation
of the input sorted ascending by parsed date, and it is stable: for every
date key, the events carrying that key appear in their input order. -/
theorem order_events_spec (events : List Event)
    (h : ∀ e ∈ events, (strptime_date e.date).isSome = true) :
    ∃ l, order_events events = Except.ok l
      ∧ l.Perm events
      ∧ l.Pairwise (fun a b => dateKeyD a ≤ dateKeyD b)
      ∧ (∀ k, l.filter (fun e => dateKeyD e == k)
          = events.filter (fun e => dateKeyD e == k)) := by
  have hall : events.all (fun e => (strptime_date e.date).isSome) = true :=
    List.all_eq_true.mpr h
  refine ⟨sortLe (fun a b => decide (dateKeyD a ≤ dateKeyD b)) events,
    ?_, ?_, ?_, ?_⟩
  · unfold order_events
    rw [if_pos hall]
  · exact sortLe_perm _ _
  · exact (sortLe_pairwise _ dateLe_total dateLe_trans _).imp
      (fun hab => of_decide_eq_true hab)
  · intro k
    refine sortLe_filter _ _ ?_ _
    intro a b ha hb
    have ha' : dateKeyD a = k := by simpa using ha
    have hb' : dateKeyD b = k := by simpa using hb
    exact decide_eq_true (by rw [ha', hb'])

/-- Witness for C6: two events sharing the date `"2024-03-10"` and one
earlier event; all dates parse. -/
theorem order_events_spec_witness :
    ∃ l, order_events
        [⟨"e2", "2024-03-10", "t2", "s", "r", "Insight", []⟩,
         ⟨"e3", "2024-01-01", "t3", "s", "r", "Diagnostics", []⟩,
         ⟨"e4", "2024-03-10", "t4", "s", "r", "Friction", []⟩]
        = Except.ok l
      ∧ l.Perm
        [⟨"e2", "2024-03-10", "t2", "s", "r", "Insight", []⟩,
         ⟨"e3", "2024-01-01", "t3", "s", "r", "Diagnostics", []⟩,
         ⟨"e4", "2024-03-10", "t4", "s", "r", "Friction", []⟩]
      ∧ l.Pairwise (fun a b => dateKeyD a ≤ dateKeyD b)
      ∧ (∀ k, l.filter (fun e => dateKeyD e == k)
          = [⟨"e2", "2024-03-10", "t2", "s", "r", "Insight", []⟩,
             ⟨"e3", "2024-01-01", "t3", "s", "r", "Diagnostics", []⟩,
             ⟨"e4", "2024-03-10", "t4", "s", "r", "Friction", []⟩].filter
              (fun e => dateKeyD e == k)) :=
  order_events_spec _ (by decide)

/-- C7: `resolve` is deterministic: its output depends only on the event's
`source_message_ids` and the message collection, and on success the sort is
stable: for every timestamp key, the selected messages carrying that key
appear in the order they had in the input collection. -/
theorem resolve_deterministic (e₁ e₂ : Event) (M : List Message)
    (hids : e₁.source_message_ids = e₂.source_message_ids) :
    resolve e₁ M = resolve e₂ M
    ∧ ∀ l, resolve e₁ M = Except.ok l →
        ∀ k, l.filter (fun m => tsKeyD m == k)
          = (M.filter
              (fun m => e₁.source_message_ids.contains m.message_id)).filter
              (fun m => tsKeyD m == k) := by
  have hres : ∀ e : Event, resolve e M
      = (if (M.filter
              (fun m => e.source_message_ids.contains m.message_id)).all
              (fun m => (to_datetime m.timestamp).isSome) then
          Except.ok (sortLe (fun a b => decide (tsKeyD a ≤ tsKeyD b))
            (M.filter (fun m => e.source_message_ids.contains m.message_id)))
        else Except.error (AppError.ParserError "could not parse timestamp")) :=
    fun e => rfl
  constructor
  · rw [hres e₁, hres e₂, hids]
  · intro l hl k
    rw [hres e₁] at hl
    by_cases hall : (M.filter
        (fun m => e₁.source_message_ids.contains m.message_id)).all
        (fun m => (to_datetime m.timestamp).isSome) = true
    · rw [if_pos hall] at hl
      have hl' : sortLe (fun a b => decide (tsKeyD a ≤ tsKeyD b))
          (M.filter (fun m => e₁.source_message_ids.contains m.message_id)) = l :=
        Except.ok.inj hl
      rw [← hl']
      refine sortLe_filter _ _ ?_ _
      intro a b ha hb
      have ha' : tsKeyD a = k := by simpa using ha
      have hb' : tsKeyD b = k := by simpa using hb
      exact decide_eq_true (by rw [ha', hb'])
    · rw [if_neg hall] at hl
      exact absurd hl (by simp)

/-- Witness for C7: two selected messages with the identical timestamp
`"2024-01-05 09:00"` keep their input order in the output. -/
theorem resolve_deterministic_witness :
    resolve ⟨"e5", "2024-02-02", "t", "s", "r", "Insight", ["m20", "m21"]⟩
        [⟨"m20", "2024-01-05 09:00", "member", "Rohan", "x"⟩,
         ⟨"m21", "2024-01-05 09:00", "coach", "Carla", "y"⟩]
      = Except.ok
        [⟨"m20", "2024-01-05 09:00", "member", "Rohan", "x"⟩,
         ⟨"m21", "2024-01-05 09:00", "coach", "Carla", "y"⟩]
    ∧ (resolve ⟨"e5", "2024-02-02", "t", "s", "r", "Insight", ["m20", "m21"]⟩
          [⟨"m20", "2024-01-05 09:00", "member", "Rohan", "x"⟩,
           ⟨"m21", "2024-01-05 09:00", "coach", "Carla", "y"⟩]
        = resolve ⟨"e5", "2024-02-02", "t", "s", "r", "Insight", ["m20", "m21"]⟩
          [⟨"m20", "2024-01-05 09:00", "member", "Rohan", "x"⟩,
           ⟨"m21", "2024-01-05 09:00", "coach", "Carla", "y"⟩]
       ∧ ∀ l, resolve ⟨"e5", "2024-02-02", "t", "s", "r", "Insight", ["m20", "m21"]⟩
            [⟨"m20", "2024-01-05 09:00", "member", "Rohan", "x"⟩,
             ⟨"m21", "2024-01-05 09:00", "coach", "Carla", "y"⟩]
            = Except.ok l →
          ∀ k, l.filter (fun m => tsKeyD m == k)
            = ([⟨"m20", "2024-01-05 09:00", "member", "Rohan", "x"⟩,
                ⟨"m21", "2024-01-05 09:00", "coach", "Carla", "y"⟩].filter
                (fun m => (⟨"e5", "2024-02-02", "t", "s", "r", "Insight",
                  ["m20", "m21"]⟩ : Event).source_message_ids.contains
                    m.message_id)).filter
                (fun m => tsKeyD m == k)) :=
  ⟨by rfl,
   resolve_deterministic
     ⟨"e5", "2024-02-02", "t", "s", "r", "Insight", ["m20", "m21"]⟩
     ⟨"e5", "2024-02-02", "t", "s", "r", "Insight", ["m20", "m21"]⟩
     [⟨"m20", "2024-01-05 09:00", "member", "Rohan", "x"⟩,
      ⟨"m21", "2024-01-05 09:00", "coach", "Carla", "y"⟩] rfl⟩

/-- Projecting the keys out of a key-indexed pair list gives the keys. -/
theorem map_fst_pairs (g : α → β) (l : List α) :
    (l.map (fun n => (n, g n))).map Prod.fst = l := by
  induction l with
  | nil => rfl
  | cons x xs ih => simp [ih]

/-- Looking up a key in a key-indexed pair list. -/
theorem lookup_pairs [BEq α] [LawfulBEq α] [DecidableEq α]
    (g : α → β) (keys : List α) (k : α) :
    (keys.map (fun n => (n, g n))).lookup k
      = if k ∈ keys then some (g k) else none := by
  induction keys with
  | nil => simp
  | cons x xs ih =>
    by_cases hx : k = x
    · subst hx
      simp [List.lookup]
    · have hbeq : (k == x) = false := beq_eq_false_iff_ne.mpr hx
      simp [List.lookup, hbeq, hx, ih]

/-- Counting occurrences of `k` among the defined values of `f` over `l`. -/
theorem filterMap_count [BEq β] [LawfulBEq β] (f : α → Option β)
    (l : List α) (k : β) :
    ((l.filterMap f).filter (fun b => b == k)).length
      = (l.filter (fun a => f a == some k)).length := by
  induction l with
  | nil => rfl
  | cons a as ih =>
    cases hf : f a with
    | none =>
      simp only [List.filterMap_cons, hf, List.filter_cons]
      have hcond : ((none : Option β) == some k) = false := by
        simp
      simp only [hcond, Bool.false_eq_true, if_false, ih]
    | some b =>
      simp only [List.filterMap_cons, hf, List.filter_cons]
      cases hb : (b == k) with
      | true =>
        have hcond : (some b == some k) = true := by
          simpa using hb
        simp only [hb, hcond, if_true, List.length_cons, ih]
      | false =>
        have hcond : (some b == some k) = false := by
          simpa using hb
        simp only [hb, hcond, Bool.false_eq_true, if_false, ih]

/-- C8: `messages_per_expert` has one entry per distinct non-member sender
name (no duplicates, and a name appears exactly when some non-member message
carries it), each entry counts that expert's messages, the entries are
ordered descending by count, and the empty collection yields the empty
mapping. -/
theorem messages_per_expert_spec (messages : List Message) :
    ((messages_per_expert messages).map Prod.fst).Nodup
    ∧ (∀ n, n ∈ (messages_per_expert messages).map Prod.fst
        ↔ ∃ m, m ∈ messages ∧ m.sender_role ≠ "member" ∧ m.sender_name = n)
    ∧ (∀ pr ∈ messages_per_expert messages,
        pr.2 = ((messages.filter (fun m => m.sender_role != "member")).filter
          (fun m => m.sender_name == pr.1)).length)
    ∧ (messages_per_expert messages).Pairwise (fun a b => b.2 ≤ a.2)
    ∧ messages_per_expert ([] : List Message) = [] := by
  have hEq : messages_per_expert messages
      = sortLe (fun a b : String × Nat => decide (b.2 ≤ a.2))
          ((distinctFirst
              ((messages.filter (fun m => m.sender_role != "member")).map
                (fun m => m.sender_name))).map
            (fun n => (n,
              ((messages.filter (fun m => m.sender_role != "member")).filter
                (fun m => m.sender_name == n)).length))) := rfl
  refine ⟨?_, ?_, ?_, ?_, rfl⟩
  · rw [hEq]
    have hperm := (sortLe_perm (fun a b : String × Nat => decide (b.2 ≤ a.2))
      ((distinctFirst
          ((messages.filter (fun m => m.sender_role != "member")).map
            (fun m => m.sender_name))).map
        (fun n => (n,
          ((messages.filter (fun m => m.sender_role != "member")).filter
            (fun m => m.sender_name == n)).length)))).map Prod.fst
    refine hperm.symm.nodup ?_
    rw [map_fst_pairs]
    exact nodup_distinctFirst _
  · intro n
    rw [hEq]
    have hperm := (sortLe_perm (fun a b : String × Nat => decide (b.2 ≤ a.2))
      ((distinctFirst
          ((messages.filter (fun m => m.sender_role != "member")).map
            (fun m => m.sender_name))).map
        (fun n => (n,
          ((messages.filter (fun m => m.sender_role != "member")).filter
            (fun m => m.sender_name == n)).length)))).map Prod.fst
    rw [hperm.mem_iff, map_fst_pairs, mem_distinctFirst]
    constructor
    · intro hn
      rcases List.mem_map.mp hn with ⟨m, hm, rfl⟩
      rcases List.mem_filter.mp hm with ⟨hmem, hrole⟩
      exact ⟨m, hmem, by simpa using hrole, rfl⟩
    · rintro ⟨m, hmem, hrole, rfl⟩
      exact List.mem_map.mpr
        ⟨m, List.mem_filter.mpr ⟨hmem, by simpa using hrole⟩, rfl⟩
  · intro pr hpr
    rw [hEq] at hpr
    rcases List.mem_map.mp ((sortLe_perm _ _).mem_iff.mp hpr) with ⟨n, _, hpair⟩
    rw [← hpair]
  · rw [hEq]
    have htot : ∀ a b : String × Nat,
        decide (b.2 ≤ a.2) = true ∨ decide (a.2 ≤ b.2) = true := by
      intro a b
      rcases Nat.le_total b.2 a.2 with hh | hh
      · exact Or.inl (decide_eq_true hh)
      · exact Or.inr (decide_eq_true hh)
    have htrans : ∀ a b c : String × Nat,
        decide (b.2 ≤ a.2) = true → decide (c.2 ≤ b.2) = true →
          decide (c.2 ≤ a.2) = true := by
      intro a b c hab hbc
      exact decide_eq_true
        (Nat.le_trans (of_decide_eq_true hbc) (of_decide_eq_true hab))
    exact (sortLe_pairwise _ htot htrans _).imp (fun hab => of_decide_eq_true hab)

/-- Witness for C8: two experts, the busier one listed first. -/
theorem messages_per_expert_spec_witness :
    messages_per_expert [coachMsg1, nutMsg, coachMsg2]
      = [("Carla", 2), ("Nadia", 1)]
    ∧ (messages_per_expert [coachMsg1, nutMsg, coachMsg2]).Pairwise
        (fun a b => b.2 ≤ a.2) :=
  ⟨by rfl, (messages_per_expert_spec [coachMsg1, nutMsg, coachMsg2]).2.2.2.1⟩

/-- C9: when every member message's timestamp parses (as is the case
whenever this aggregation runs, since `calculate_metrics` parses the whole
column first), `initiations_per_month` maps each `YYYY-MM` month key to the
number of member messages of that month: looking up any key returns exactly
that count, every listed key comes from some member message's month, the
keys are distinct, and the empty collection yields the empty mapping. -/
theorem initiations_per_month_spec (messages : List Message)
    (h : ∀ m ∈ messages, m.sender_role = "member" →
      (to_datetime m.timestamp).isSome = true) :
    (∀ k, ((initiations_per_month messages).lookup k).getD 0
        = ((messages.filter (fun m => m.sender_role == "member")).filter
            (fun m => (to_datetime m.timestamp).map month_str == some k)).length)
    ∧ (∀ pr ∈ initiations_per_month messages,
        ∃ m, m ∈ messages ∧ m.sender_role = "member"
          ∧ (to_datetime m.timestamp).map month_str = some pr.1)
    ∧ ((initiations_per_month messages).map Prod.fst).Nodup
    ∧ initiations_per_month ([] : List Message) = [] := by
  have hEq : initiations_per_month messages
      = (sortLe (fun a b : String => compare a b != Ordering.gt)
          (distinctFirst
            ((messages.filter (fun m => m.sender_role == "member")).filterMap
              (fun m => (to_datetime m.timestamp).map month_str)))).map
          (fun k => (k,
            (((messages.filter (fun m => m.sender_role == "member")).filterMap
              (fun m => (to_datetime m.timestamp).map month_str)).filter
                (fun s => s == k)).length)) := rfl
  refine ⟨?_, ?_, ?_, rfl⟩
  · intro k
    have hlook := lookup_pairs
      (fun n =>
        (((messages.filter (fun m => m.sender_role == "member")).filterMap
          (fun m => (to_datetime m.timestamp).map month_str)).filter
            (fun s => s == n)).length)
      (sortLe (fun a b : String => compare a b != Ordering.gt)
        (distinctFirst
          ((messages.filter (fun m => m.sender_role == "member")).filterMap
            (fun m => (to_datetime m.timestamp).map month_str)))) k
    rw [hEq, hlook]
    by_cases hk : k ∈ sortLe (fun a b : String => compare a b != Ordering.gt)
        (distinctFirst
          ((messages.filter (fun m => m.sender_role == "member")).filterMap
            (fun m => (to_datetime m.timestamp).map month_str)))
    · rw [if_pos hk]
      simp only [Option.getD_some]
      exact filterMap_count _ _ _
    · rw [if_neg hk]
      simp only [Option.getD_none]
      symm
      rw [List.length_eq_zero]
      refine List.filter_eq_nil_iff.mpr ?_
      intro m hm hcond
      apply hk
      rw [sortLe_mem, mem_distinctFirst]
      exact List.mem_filterMap.mpr ⟨m, hm, by simpa using hcond⟩
  · intro pr hpr
    rw [hEq] at hpr
    rcases List.mem_map.mp hpr with ⟨k, hk, hpair⟩
    rw [sortLe_mem, mem_distinctFirst] at hk
    rcases List.mem_filterMap.mp hk with ⟨m, hm, hmk⟩
    rcases List.mem_filter.mp hm with ⟨hmem, hrole⟩
    refine ⟨m, hmem, by simpa using hrole, ?_⟩
    rw [← hpair]
    exact hmk
  · rw [hEq]
    have hperm := (sortLe_perm (fun a b : String => compare a b != Ordering.gt)
      (distinctFirst
        ((messages.filter (fun m => m.sender_role == "member")).filterMap
          (fun m => (to_datetime m.timestamp).map month_str)))).symm
    have hmap := (List.Perm.map
      (fun k => (k,
        (((messages.filter (fun m => m.sender_role == "member")).filterMap
          (fun m => (to_datetime m.timestamp).map month_str)).filter
            (fun s => s == k)).length)) hperm).map Prod.fst
    refine hmap.nodup ?_
    rw [map_fst_pairs]
    exact nodup_distinctFirst _

/-- Witness for C9: one member message in January, one in February, one
coach message; both month buckets count 1. -/
theorem initiations_per_month_spec_witness :
    initiations_per_month [morningMsg, coachMsg1, febMsg]
      = [("2024-01", 1), ("2024-02", 1)]
    ∧ ((initiations_per_month [morningMsg, coachMsg1, febMsg]).lookup
        "2024-01").getD 0
      = (([morningMsg, coachMsg1, febMsg].filter
          (fun m => m.sender_role == "member")).filter
          (fun m => (to_datetime m.timestamp).map month_str
            == some "2024-01")).length :=
  ⟨by rfl,
   (initiations_per_month_spec [morningMsg, coachMsg1, febMsg]
     (by decide)).1 "2024-01"⟩

end Elyx
